import Mathlib

/-!
Shallow embedding of the key-value server in `src/test.cpp`: the binary frame
codec (`read_u32`, `read_str`, `parse_req`, `make_response`), the global store
`g_data` with its `map<string,string>` operations, command dispatch
(`do_request`), the per-connection framing loop (`handle_one_request` and the
`while` loop of `handle_read`), the accept path (`fb_set_nb`,
`handle_accept`), and the per-iteration event dispatch of `main`'s poll loop.
Byte strings are lists of naturals; 32-bit quantities are naturals reduced
mod 2^32 where the C code truncates.
-/

namespace Redis

/-- Hard frame-size ceiling from the source: `const size_t k_max_msg = 32 << 20;`. -/
def k_max_msg : Nat := 32 <<< 20

/-- Little-endian 4-byte encoding of a 32-bit value, as a `memcpy` from a
`uint32_t` produces on the (little-endian) host; the value is truncated
mod 2^32 exactly as the `uint32_t` store would truncate it. -/
def u32le (n : Nat) : List Nat :=
  [n % 4294967296 % 256,
   n % 4294967296 / 256 % 256,
   n % 4294967296 / 65536 % 256,
   n % 4294967296 / 16777216 % 256]

/-- Value of the first four bytes read little-endian, used for the
`memcpy(&len, read_buf.data(), 4)` in `handle_one_request`; its callers
guard that at least 4 bytes are present. -/
def decodeU32 (bs : List Nat) : Nat :=
  match bs with
  | b0 :: b1 :: b2 :: b3 :: _ => b0 + 256 * b1 + 65536 * b2 + 16777216 * b3
  | _ => 0

/-- Source `read_u32`: succeeds when at least 4 bytes remain before `end`,
yielding the little-endian value of those bytes and the remaining input. -/
def read_u32 (bs : List Nat) : Option (Nat × List Nat) :=
  match bs with
  | b0 :: b1 :: b2 :: b3 :: rest =>
    some (b0 + 256 * b1 + 65536 * b2 + 16777216 * b3, rest)
  | _ => none

/-- Source `read_str`: succeeds when at least `n` bytes remain before `end`,
yielding those `n` bytes and the remaining input. -/
def read_str (bs : List Nat) (n : Nat) : Option (List Nat × List Nat) :=
  if n ≤ bs.length then some (bs.take n, bs.drop n) else none

/-- Argument-reading loop of `parse_req` (`while(out.size() < nstr)`): read
exactly `k` length-prefixed strings, failing when a length field or a string
body would run past the end of the frame. -/
def parse_args : Nat → List Nat → Option (List (List Nat))
  | 0, _ => some []
  | k + 1, bs =>
    match read_u32 bs with
    | none => none
    | some (slen, bs1) =>
      match read_str bs1 slen with
      | none => none
      | some (s, bs2) =>
        match parse_args k bs2 with
        | none => none
        | some out => some (s :: out)

/-- Source `parse_req` applied to the `len` bytes of one frame body: read the
argument count `nstr`, reject `nstr > k_max_msg`, then read `nstr`
length-prefixed arguments. Bytes of the body left over after the last
argument are not examined. -/
def parse_req (body : List Nat) : Option (List (List Nat)) :=
  match read_u32 body with
  | none => none
  | some (nstr, rest) =>
    if nstr > k_max_msg then none
    else parse_args nstr rest

/-- The global store `static map<string, string> g_data`, modeled as an
association list with unique keys; strings are byte lists. -/
abbrev Store := List (List Nat × List Nat)

/-- Lookup, as `g_data.find(k)`. -/
def mapFind : Store → List Nat → Option (List Nat)
  | [], _ => none
  | (k, v) :: rest, key => if k = key then some v else mapFind rest key

/-- Insert-or-assign, as `g_data[k] = v`. -/
def mapSet : Store → List Nat → List Nat → Store
  | [], key, val => [(key, val)]
  | (k, v) :: rest, key, val =>
    if k = key then (key, val) :: rest else (k, v) :: mapSet rest key val

/-- Removal, as `g_data.erase(k)`; a no-op when the key is absent. -/
def mapErase : Store → List Nat → Store
  | [], _ => []
  | (k, v) :: rest, key => if k = key then rest else (k, v) :: mapErase rest key

/-- Source `struct Response`: a status word and an opaque payload. -/
structure Response where
  status : Nat
  data : List Nat
deriving DecidableEq, Repr

/-- Source `make_response`: serialize `[u32 total_length][u32 status][payload]`
with `total_length = 4 + payload size`. -/
def make_response (r : Response) : List Nat :=
  u32le (4 + r.data.length) ++ u32le r.status ++ r.data

/-- Byte string of the literal "get". -/
def cmdGet : List Nat := [103, 101, 116]

/-- Byte string of the literal "set". -/
def cmdSet : List Nat := [115, 101, 116]

/-- Byte string of the literal "del". -/
def cmdDel : List Nat := [100, 101, 108]

/-- Source `do_request`: dispatch one parsed command against the store,
returning the updated store and the single response that the function hands
to `make_response`. The branches mirror the source: `get` with 2 args
(status 1 and empty payload when the key is absent, else status 0 and the
value), `set` with 3 args, `del` with 2 args, and anything else is an error
with status 1 and no store mutation. -/
def do_request (cmd : List (List Nat)) (st : Store) : Store × Response :=
  if cmd.length = 2 ∧ cmd.headD [] = cmdGet then
    match mapFind st (cmd.getD 1 []) with
    | none => (st, ⟨1, []⟩)
    | some v => (st, ⟨0, v⟩)
  else if cmd.length = 3 ∧ cmd.headD [] = cmdSet then
    (mapSet st (cmd.getD 1 []) (cmd.getD 2 []), ⟨0, []⟩)
  else if cmd.length = 2 ∧ cmd.headD [] = cmdDel then
    (mapErase st (cmd.getD 1 []), ⟨0, []⟩)
  else
    (st, ⟨1, []⟩)

/-- Source `struct conn` (protocol-relevant state; the descriptor itself is
tracked by the event loop). -/
@[ext]
structure Conn where
  want_read : Bool := true
  want_write : Bool := false
  want_close : Bool := false
  read_buf : List Nat := []
  write_buf : List Nat := []
deriving DecidableEq, Repr

/-- Source `handle_one_request`: try to extract and process one frame from the
front of `read_buf`. Returns the updated connection, the updated store, and
whether a full frame was consumed (the value the `while` loop in
`handle_read` tests). -/
def handle_one_request (c : Conn) (st : Store) : Conn × Store × Bool :=
  if c.read_buf.length < 4 then (c, st, false)
  else
    let len := decodeU32 c.read_buf
    if len > 32 <<< 20 then ({ c with want_close := true }, st, false)
    else if c.read_buf.length < 4 + len then (c, st, false)
    else
      match parse_req ((c.read_buf.drop 4).take len) with
      | none => ({ c with want_close := true }, st, false)
      | some cmd =>
        let r := do_request cmd st
        ({ c with
            write_buf := c.write_buf ++ make_response r.2,
            read_buf := c.read_buf.drop (4 + len) }, r.1, true)

/-- Fuel-indexed unrolling of the source loop `while(handle_one_request(c)){}`
in `handle_read`. Every iteration that returns `true` consumes at least 4
bytes of `read_buf`, so fuel `read_buf.length + 1` always reaches the final
call that returns `false`. -/
def runRequests : Nat → Conn → Store → Conn × Store
  | 0, c, st => (c, st)
  | fuel + 1, c, st =>
    let r := handle_one_request c st
    if r.2.2 then runRequests fuel r.1 r.2.1 else (r.1, r.2.1)

/-- Run the request loop of `handle_read` to completion (with the fuel that
the byte-consumption bound makes sufficient). -/
def drain (c : Conn) (st : Store) : Conn × Store :=
  runRequests (c.read_buf.length + 1) c st

/-- Read path of source `handle_read` after a successful `read()` that
returned `chunk`: append the bytes to `read_buf` and process every complete
frame now present. -/
def handle_read_bytes (c : Conn) (st : Store) (chunk : List Nat) : Conn × Store :=
  drain { c with read_buf := c.read_buf ++ chunk } st

/-- Deliver a sequence of chunks one `read()` at a time. -/
def feedChunks (c : Conn) (st : Store) (chunks : List (List Nat)) : Conn × Store :=
  chunks.foldl (fun p chunk => handle_read_bytes p.1 p.2 chunk) (c, st)

/-- The sequence of (parsed request, response) pairs that the request loop
dispatches, in order, walking exactly the frames that `handle_one_request`
consumes from the buffer. -/
def frameTrace : Nat → List Nat → Store → List (List (List Nat) × Response)
  | 0, _, _ => []
  | fuel + 1, buf, st =>
    if buf.length < 4 then []
    else
      let len := decodeU32 buf
      if len > 32 <<< 20 then []
      else if buf.length < 4 + len then []
      else
        match parse_req ((buf.drop 4).take len) with
        | none => []
        | some cmd =>
          let r := do_request cmd st
          (cmd, r.2) :: frameTrace fuel (buf.drop (4 + len)) r.1

/-- Poll result flags of one `pollfd` as the connection loop in `main` reads
them: `POLLIN`, `POLLOUT`, `POLLERR`, and any other revent bit (such as
`POLLHUP`), which makes `revents` nonzero without triggering a handler. -/
structure Revents where
  pollin : Bool
  pollout : Bool
  pollerr : Bool
  pollother : Bool
deriving DecidableEq, Repr

/-- The `ready == 0` test of the loop: no revent bit at all is set. -/
def reventsNone (r : Revents) : Bool :=
  !r.pollin && !r.pollout && !r.pollerr && !r.pollother

/-- Handler invocations the connection loop can make for one poll entry. -/
inductive Action where
  | readH (fd : Nat)
  | writeH (fd : Nat)
  | closeH (fd : Nat)
deriving DecidableEq, Repr

/-- Dispatch for one non-listener poll entry, from the `for` loop body of
`main`: an entry with `revents == 0` is skipped; `POLLIN` invokes the read
handler; `POLLOUT` invokes the write handler; `POLLERR`, or a `want_close`
left set after the handlers ran, closes and discards the connection.
`wantCloseAfter fd` abstracts the connection's `want_close` flag as the
handlers left it. -/
def dispatchEntry (wantCloseAfter : Nat → Bool) (e : Nat × Revents) : List Action :=
  if reventsNone e.2 then []
  else
    (if e.2.pollin then [Action.readH e.1] else []) ++
    (if e.2.pollout then [Action.writeH e.1] else []) ++
    (if e.2.pollerr || wantCloseAfter e.1 then [Action.closeH e.1] else [])

/-- One event-loop iteration over the non-listener poll entries, in order. -/
def dispatchIteration (wantCloseAfter : Nat → Bool)
    (entries : List (Nat × Revents)) : List Action :=
  entries.flatMap (dispatchEntry wantCloseAfter)

/-- Source `fb_set_nb`: `fcntl(F_GETFL)` on an invalid (negative) descriptor
fails, and on `flags < 0` the function calls `die()`, aborting the whole
process; `none` models that abort, `some ()` a successful return. -/
def fb_set_nb (fd : Int) : Option Unit :=
  if fd < 0 then none else some ()

/-- Outcome of one `handle_accept` call. -/
inductive AcceptOutcome where
  | noConn
  | newConn (fd : Int)
  | procAbort
deriving DecidableEq, Repr

/-- Source `handle_accept`, as a function of the `accept()` result: `newfd`
is the returned descriptor (negative exactly on error) and `errnoIsEagain`
says whether `errno` was `EAGAIN`. On error with `EAGAIN` it returns NULL;
on any other error it logs and falls through without returning, so
`fb_set_nb` runs on the invalid descriptor and its failure aborts. -/
def handle_accept (newfd : Int) (errnoIsEagain : Bool) : AcceptOutcome :=
  if newfd < 0 ∧ errnoIsEagain then AcceptOutcome.noConn
  else
    match fb_set_nb newfd with
    | none => AcceptOutcome.procAbort
    | some _ => AcceptOutcome.newConn newfd

/-- Wire encoding of one argument: `[u32 length][bytes]`. -/
def encodeArg (a : List Nat) : List Nat := u32le a.length ++ a

/-- Wire encoding of an argument list: the frame body after the `arg_count`
field. -/
def encodeArgs (args : List (List Nat)) : List Nat :=
  (args.map encodeArg).flatten

/-! Basic facts about the codec and the store. -/

theorem k_max_msg_eq : k_max_msg = 33554432 := by decide

theorem length_u32le (n : Nat) : (u32le n).length = 4 := by
  simp [u32le]

theorem read_u32_u32le (n : Nat) (rest : List Nat) (h : n < 4294967296) :
    read_u32 (u32le n ++ rest) = some (n, rest) := by
  simp only [u32le, List.cons_append, List.nil_append, read_u32]
  congr 1
  congr 1
  omega

theorem decodeU32_u32le (n : Nat) (rest : List Nat) (h : n < 4294967296) :
    decodeU32 (u32le n ++ rest) = n := by
  simp only [u32le, List.cons_append, List.nil_append, decodeU32]
  omega

theorem read_str_exact (a rest : List Nat) :
    read_str (a ++ rest) a.length = some (a, rest) := by
  simp [read_str, List.take_left, List.drop_left]

theorem mapFind_mapSet_self (st : Store) (k v : List Nat) :
    mapFind (mapSet st k v) k = some v := by
  induction st with
  | nil => simp [mapSet, mapFind]
  | cons p rest ih =>
    obtain ⟨k', v'⟩ := p
    by_cases h : k' = k
    · simp [mapSet, h, mapFind]
    · simp [mapSet, h, mapFind, ih]

/-- C1: for every key `k` and value `v`, dispatching the request
`["set", k, v]` and then the request `["get", k]` (with no intervening
dispatch touching `k`) yields for the `get` a response with status 0 and
payload equal to `v`. -/
theorem set_then_get_round_trip (k v : List Nat) (st : Store) :
    (do_request [cmdGet, k] (do_request [cmdSet, k, v] st).1).2 =
      ⟨0, v⟩ := by
  simp [do_request, cmdGet, cmdSet, cmdDel, mapFind_mapSet_self]

/-- C9: a parsed request whose shape is not `get` with 2 args, `set` with
3 args, or `del` with 2 args leaves the store completely unchanged and gets
a response with status 1 and an empty payload. -/
theorem unknown_command_rejected (cmd : List (List Nat)) (st : Store)
    (hget : ¬(cmd.length = 2 ∧ cmd.headD [] = cmdGet))
    (hset : ¬(cmd.length = 3 ∧ cmd.headD [] = cmdSet))
    (hdel : ¬(cmd.length = 2 ∧ cmd.headD [] = cmdDel)) :
    do_request cmd st = (st, ⟨1, []⟩) := by
  unfold do_request
  rw [if_neg hget, if_neg hset, if_neg hdel]

/-- Witness for C9 at the concrete one-argument request `["x"]`. -/
theorem unknown_command_rejected_witness :
    do_request [[120]] [([107], [118])] = ([([107], [118])], ⟨1, []⟩) :=
  unknown_command_rejected [[120]] [([107], [118])]
    (by decide) (by decide) (by decide)

/-! Branch characterization of `handle_one_request`. -/

theorem hor_header_wait (c : Conn) (st : Store) (h : c.read_buf.length < 4) :
    handle_one_request c st = (c, st, false) := by
  simp [handle_one_request, h]

theorem hor_too_long (c : Conn) (st : Store) (h4 : 4 ≤ c.read_buf.length)
    (h : k_max_msg < decodeU32 c.read_buf) :
    handle_one_request c st = ({ c with want_close := true }, st, false) := by
  rw [k_max_msg_eq] at h
  have h1 : ¬ c.read_buf.length < 4 := by omega
  simp [handle_one_request, h1, h]

theorem hor_body_wait (c : Conn) (st : Store) (h4 : 4 ≤ c.read_buf.length)
    (hlen : decodeU32 c.read_buf ≤ k_max_msg)
    (hw : c.read_buf.length < 4 + decodeU32 c.read_buf) :
    handle_one_request c st = (c, st, false) := by
  rw [k_max_msg_eq] at hlen
  have h1 : ¬ c.read_buf.length < 4 := by omega
  have h2 : ¬ 33554432 < decodeU32 c.read_buf := by omega
  simp [handle_one_request, h1, h2, hw]

theorem hor_parse_bad (c : Conn) (st : Store) (h4 : 4 ≤ c.read_buf.length)
    (hlen : decodeU32 c.read_buf ≤ k_max_msg)
    (hfull : 4 + decodeU32 c.read_buf ≤ c.read_buf.length)
    (hp : parse_req ((c.read_buf.drop 4).take (decodeU32 c.read_buf)) = none) :
    handle_one_request c st = ({ c with want_close := true }, st, false) := by
  rw [k_max_msg_eq] at hlen
  have h1 : ¬ c.read_buf.length < 4 := by omega
  have h2 : ¬ 33554432 < decodeU32 c.read_buf := by omega
  have h3 : ¬ c.read_buf.length < 4 + decodeU32 c.read_buf := by omega
  simp [handle_one_request, h1, h2, h3, hp]

theorem hor_parse_ok (c : Conn) (st : Store) (cmd : List (List Nat))
    (h4 : 4 ≤ c.read_buf.length)
    (hlen : decodeU32 c.read_buf ≤ k_max_msg)
    (hfull : 4 + decodeU32 c.read_buf ≤ c.read_buf.length)
    (hp : parse_req ((c.read_buf.drop 4).take (decodeU32 c.read_buf)) = some cmd) :
    handle_one_request c st =
      ({ c with
          write_buf := c.write_buf ++ make_response (do_request cmd st).2,
          read_buf := c.read_buf.drop (4 + decodeU32 c.read_buf) },
        (do_request cmd st).1, true) := by
  rw [k_max_msg_eq] at hlen
  have h1 : ¬ c.read_buf.length < 4 := by omega
  have h2 : ¬ 33554432 < decodeU32 c.read_buf := by omega
  have h3 : ¬ c.read_buf.length < 4 + decodeU32 c.read_buf := by omega
  simp [handle_one_request, h1, h2, h3, hp]

/-- Exhaustive case split over the five branches of `handle_one_request`. -/
theorem hor_cases (c : Conn) (st : Store) :
    (c.read_buf.length < 4 ∧ handle_one_request c st = (c, st, false)) ∨
    (4 ≤ c.read_buf.length ∧ k_max_msg < decodeU32 c.read_buf ∧
      handle_one_request c st = ({ c with want_close := true }, st, false)) ∨
    (4 ≤ c.read_buf.length ∧ decodeU32 c.read_buf ≤ k_max_msg ∧
      c.read_buf.length < 4 + decodeU32 c.read_buf ∧
      handle_one_request c st = (c, st, false)) ∨
    (4 ≤ c.read_buf.length ∧ decodeU32 c.read_buf ≤ k_max_msg ∧
      4 + decodeU32 c.read_buf ≤ c.read_buf.length ∧
      parse_req ((c.read_buf.drop 4).take (decodeU32 c.read_buf)) = none ∧
      handle_one_request c st = ({ c with want_close := true }, st, false)) ∨
    (∃ cmd, 4 ≤ c.read_buf.length ∧ decodeU32 c.read_buf ≤ k_max_msg ∧
      4 + decodeU32 c.read_buf ≤ c.read_buf.length ∧
      parse_req ((c.read_buf.drop 4).take (decodeU32 c.read_buf)) = some cmd ∧
      handle_one_request c st =
        ({ c with
            write_buf := c.write_buf ++ make_response (do_request cmd st).2,
            read_buf := c.read_buf.drop (4 + decodeU32 c.read_buf) },
          (do_request cmd st).1, true)) := by
  by_cases h1 : c.read_buf.length < 4
  · exact Or.inl ⟨h1, hor_header_wait c st h1⟩
  · have h4 : 4 ≤ c.read_buf.length := by omega
    by_cases h2 : k_max_msg < decodeU32 c.read_buf
    · exact Or.inr (Or.inl ⟨h4, h2, hor_too_long c st h4 h2⟩)
    · have hlen : decodeU32 c.read_buf ≤ k_max_msg := by omega
      by_cases h3 : c.read_buf.length < 4 + decodeU32 c.read_buf
      · exact Or.inr (Or.inr (Or.inl ⟨h4, hlen, h3, hor_body_wait c st h4 hlen h3⟩))
      · have hfull : 4 + decodeU32 c.read_buf ≤ c.read_buf.length := by omega
        cases hp : parse_req ((c.read_buf.drop 4).take (decodeU32 c.read_buf)) with
        | none =>
          exact Or.inr (Or.inr (Or.inr (Or.inl
            ⟨h4, hlen, hfull, rfl, hor_parse_bad c st h4 hlen hfull hp⟩)))
        | some cmd =>
          exact Or.inr (Or.inr (Or.inr (Or.inr
            ⟨cmd, h4, hlen, hfull, rfl, hor_parse_ok c st cmd h4 hlen hfull hp⟩)))

/-! Size accounting for the argument parser. -/

theorem read_u32_some (bs : List Nat) (v : Nat) (rest : List Nat)
    (h : read_u32 bs = some (v, rest)) : rest.length + 4 = bs.length := by
  rcases bs with _ | ⟨b0, _ | ⟨b1, _ | ⟨b2, _ | ⟨b3, t⟩⟩⟩⟩ <;> simp_all [read_u32]

theorem read_str_some (bs : List Nat) (n : Nat) (s rest : List Nat)
    (h : read_str bs n = some (s, rest)) : rest.length ≤ bs.length := by
  unfold read_str at h
  split at h
  · cases h; simp
  · cases h

/-- An argument count whose length fields alone exceed the remaining frame
bytes makes `parse_args` fail: every argument costs at least its 4-byte
length field. -/
theorem parse_args_short (k : Nat) (bs : List Nat) (h : bs.length < 4 * k) :
    parse_args k bs = none := by
  induction k generalizing bs with
  | zero => omega
  | succ k ih =>
    cases hr : read_u32 bs with
    | none => simp [parse_args, hr]
    | some p =>
      obtain ⟨slen, bs1⟩ := p
      have hb1 : bs1.length + 4 = bs.length := read_u32_some bs slen bs1 hr
      cases hs : read_str bs1 slen with
      | none => simp [parse_args, hr, hs]
      | some q =>
        obtain ⟨s, bs2⟩ := q
        have hb2 : bs2.length ≤ bs1.length := read_str_some bs1 slen s bs2 hs
        have : bs2.length < 4 * k := by omega
        simp [parse_args, hr, hs, ih bs2 this]

/-- C4: a buffered frame whose declared `total_length` exceeds 32 MiB marks
the connection for close while leaving the store (and everything but the
`want_close` flag) unchanged and consuming nothing; and any poll entry with
nonzero revents whose connection has `want_close` set gets the close action
in the same event-loop iteration. -/
theorem oversized_frame_closes (c : Conn) (st : Store)
    (h4 : 4 ≤ c.read_buf.length)
    (h : k_max_msg < decodeU32 c.read_buf) :
    handle_one_request c st = ({ c with want_close := true }, st, false) ∧
    ∀ (wc : Nat → Bool) (fd : Nat) (rev : Revents), reventsNone rev = false →
      wc fd = true → Action.closeH fd ∈ dispatchEntry wc (fd, rev) := by
  refine ⟨hor_too_long c st h4 h, ?_⟩
  intro wc fd rev hrev hwc
  simp [dispatchEntry, hrev, hwc]

/-- Witness for C4: a frame declaring `total_length = 33554433` on an
otherwise fresh connection. -/
theorem oversized_frame_closes_witness :
    handle_one_request ⟨true, false, false, u32le 33554433, []⟩ [] =
      (⟨true, false, true, u32le 33554433, []⟩, [], false) ∧
    Action.closeH 3 ∈ dispatchEntry (fun _ => true) (3, ⟨true, false, false, false⟩) := by
  have h := oversized_frame_closes ⟨true, false, false, u32le 33554433, []⟩ []
    (by decide) (by decide)
  exact ⟨h.1, h.2 (fun _ => true) 3 ⟨true, false, false, false⟩ (by decide) rfl⟩

/-- C5: a complete frame whose argument structure is internally
inconsistent — `parse_req` fails on its body — marks the connection for
close and leaves the store, the write buffer and the read buffer unchanged;
moreover an argument count whose arguments cannot fit in the remaining
frame bytes always makes the argument parser fail. -/
theorem malformed_frame_closes (c : Conn) (st : Store)
    (h4 : 4 ≤ c.read_buf.length)
    (hlen : decodeU32 c.read_buf ≤ k_max_msg)
    (hfull : 4 + decodeU32 c.read_buf ≤ c.read_buf.length)
    (hp : parse_req ((c.read_buf.drop 4).take (decodeU32 c.read_buf)) = none) :
    handle_one_request c st = ({ c with want_close := true }, st, false) ∧
    ∀ (k : Nat) (bs : List Nat), bs.length < 4 * k → parse_args k bs = none :=
  ⟨hor_parse_bad c st h4 hlen hfull hp, parse_args_short⟩

/-- Witness for C5: a frame declaring one argument but providing no bytes
for its length field. -/
theorem malformed_frame_closes_witness :
    handle_one_request ⟨true, false, false, u32le 4 ++ u32le 1, []⟩ [] =
      (⟨true, false, true, u32le 4 ++ u32le 1, []⟩, [], false) ∧
    parse_args 1 [] = none := by
  have h := malformed_frame_closes ⟨true, false, false, u32le 4 ++ u32le 1, []⟩ []
    (by decide) (by decide) (by decide) (by decide)
  exact ⟨h.1, h.2 1 [] (by decide)⟩

/-! Appending bytes to the buffer does not change the frame at its front. -/

theorem decodeU32_append (buf ys : List Nat) (h : 4 ≤ buf.length) :
    decodeU32 (buf ++ ys) = decodeU32 buf := by
  rcases buf with _ | ⟨b0, _ | ⟨b1, _ | ⟨b2, _ | ⟨b3, t⟩⟩⟩⟩ <;> simp_all [decodeU32]

theorem body_append (buf ys : List Nat) (len : Nat)
    (h : 4 + len ≤ buf.length) :
    ((buf ++ ys).drop 4).take len = (buf.drop 4).take len := by
  rw [List.drop_append_of_le_length (by omega)]
  rw [List.take_append_of_le_length (by simp; omega)]

/-! Claim C6: the size bound the parser actually enforces. -/

/-- Reading the argument count off the front of a frame body whose count
is within the ceiling. -/
theorem parse_req_u32 (nstr : Nat) (rest : List Nat) (h32 : nstr < 4294967296)
    (hmax : nstr ≤ k_max_msg) :
    parse_req (u32le nstr ++ rest) = parse_args nstr rest := by
  unfold parse_req
  rw [read_u32_u32le nstr rest h32]
  have h : ¬ nstr > k_max_msg := by omega
  simp only [h, if_false]

/-- Counterexample to C6: a complete frame with `total_length = 33554432`
(so `4 + total_length = 33554436 > 32 MiB`) is not rejected: the parser
accepts it, dispatches it, and `handle_one_request` returns `true`. The
frame body declares zero arguments followed by 33554428 padding bytes. -/
theorem frame_size_bound_cex :
    (32 <<< 20 : Nat) <
      4 + decodeU32 (u32le 33554432 ++ (u32le 0 ++ List.replicate 33554428 9)) ∧
    (handle_one_request
      ⟨true, false, false,
        u32le 33554432 ++ (u32le 0 ++ List.replicate 33554428 9), []⟩ []).2.2 =
      true := by
  have hblen : (u32le 0 ++ List.replicate 33554428 9).length = 33554432 := by
    rw [List.length_append, List.length_replicate, length_u32le]
  have hdec :
      decodeU32 (u32le 33554432 ++ (u32le 0 ++ List.replicate 33554428 9)) =
        33554432 :=
    decodeU32_u32le 33554432 _ (by norm_num)
  constructor
  · rw [hdec]
    decide
  · have hcbuf : (⟨true, false, false,
        u32le 33554432 ++ (u32le 0 ++ List.replicate 33554428 9), []⟩ :
        Conn).read_buf =
        u32le 33554432 ++ (u32le 0 ++ List.replicate 33554428 9) := rfl
    have hlenbuf : (u32le 33554432 ++
        (u32le 0 ++ List.replicate 33554428 9)).length = 4 + 33554432 := by
      rw [List.length_append, length_u32le, hblen]
    have hbody4 : ((u32le 33554432 ++
        (u32le 0 ++ List.replicate 33554428 9)).drop 4).take 33554432 =
        u32le 0 ++ List.replicate 33554428 9 := by
      rw [List.drop_left' (length_u32le 33554432), ← hblen,
        List.take_of_length_le (le_refl _)]
    have hp : parse_req (((u32le 33554432 ++
        (u32le 0 ++ List.replicate 33554428 9)).drop 4).take 33554432) =
        some [] := by
      rw [hbody4, parse_req_u32 0 _ (by norm_num) (by rw [k_max_msg_eq]; omega)]
      rfl
    have h := hor_parse_ok
      ⟨true, false, false,
        u32le 33554432 ++ (u32le 0 ++ List.replicate 33554428 9), []⟩ [] []
      (by rw [hcbuf, hlenbuf]; omega)
      (by rw [hcbuf, hdec, k_max_msg_eq])
      (by rw [hcbuf, hdec, hlenbuf])
      (by rw [hcbuf, hdec]; exact hp)
    rw [h]

/-- C6 amended: the bound enforced at parse time is `total_length ≤ 32 MiB`,
not `4 + total_length ≤ 32 MiB`: every frame that `handle_one_request`
accepts and dispatches has `total_length ≤ 32 MiB`, hence a whole frame of
at most 32 MiB + 4 bytes; frames with a larger declared `total_length` are
rejected (claim C4's theorem). -/
theorem frame_size_bound_amended (c : Conn) (st : Store)
    (hacc : (handle_one_request c st).2.2 = true) :
    decodeU32 c.read_buf ≤ k_max_msg ∧
    4 + decodeU32 c.read_buf ≤ k_max_msg + 4 := by
  rcases hor_cases c st with ⟨h1, he⟩ | ⟨h4, h2, he⟩ | ⟨h4, hlen, h3, he⟩ |
    ⟨h4, hlen, hfull, hp, he⟩ | ⟨cmd, h4, hlen, hfull, hp, he⟩ <;>
    rw [he] at hacc
  · simp at hacc
  · simp at hacc
  · simp at hacc
  · simp at hacc
  · exact ⟨hlen, by omega⟩

/-! Unfolding lemmas for the request loop and its trace. -/

theorem runRequests_succ (fuel : Nat) (c : Conn) (st : Store) :
    runRequests (fuel + 1) c st =
      if (handle_one_request c st).2.2 then
        runRequests fuel (handle_one_request c st).1 (handle_one_request c st).2.1
      else ((handle_one_request c st).1, (handle_one_request c st).2.1) := rfl

theorem ft_header_wait (fuel : Nat) (buf : List Nat) (st : Store)
    (h : buf.length < 4) : frameTrace (fuel + 1) buf st = [] := by
  simp [frameTrace, h]

theorem ft_too_long (fuel : Nat) (buf : List Nat) (st : Store)
    (h4 : 4 ≤ buf.length) (h : k_max_msg < decodeU32 buf) :
    frameTrace (fuel + 1) buf st = [] := by
  rw [k_max_msg_eq] at h
  have h1 : ¬ buf.length < 4 := by omega
  simp [frameTrace, h1, h]

theorem ft_body_wait (fuel : Nat) (buf : List Nat) (st : Store)
    (h4 : 4 ≤ buf.length) (hlen : decodeU32 buf ≤ k_max_msg)
    (hw : buf.length < 4 + decodeU32 buf) :
    frameTrace (fuel + 1) buf st = [] := by
  rw [k_max_msg_eq] at hlen
  have h1 : ¬ buf.length < 4 := by omega
  have h2 : ¬ 33554432 < decodeU32 buf := by omega
  simp [frameTrace, h1, h2, hw]

theorem ft_parse_bad (fuel : Nat) (buf : List Nat) (st : Store)
    (h4 : 4 ≤ buf.length) (hlen : decodeU32 buf ≤ k_max_msg)
    (hfull : 4 + decodeU32 buf ≤ buf.length)
    (hp : parse_req ((buf.drop 4).take (decodeU32 buf)) = none) :
    frameTrace (fuel + 1) buf st = [] := by
  rw [k_max_msg_eq] at hlen
  have h1 : ¬ buf.length < 4 := by omega
  have h2 : ¬ 33554432 < decodeU32 buf := by omega
  have h3 : ¬ buf.length < 4 + decodeU32 buf := by omega
  simp [frameTrace, h1, h2, h3, hp]

theorem ft_parse_ok (fuel : Nat) (buf : List Nat) (st : Store)
    (cmd : List (List Nat))
    (h4 : 4 ≤ buf.length) (hlen : decodeU32 buf ≤ k_max_msg)
    (hfull : 4 + decodeU32 buf ≤ buf.length)
    (hp : parse_req ((buf.drop 4).take (decodeU32 buf)) = some cmd) :
    frameTrace (fuel + 1) buf st =
      (cmd, (do_request cmd st).2) ::
        frameTrace fuel (buf.drop (4 + decodeU32 buf)) (do_request cmd st).1 := by
  rw [k_max_msg_eq] at hlen
  have h1 : ¬ buf.length < 4 := by omega
  have h2 : ¬ 33554432 < decodeU32 buf := by omega
  have h3 : ¬ buf.length < 4 + decodeU32 buf := by omega
  simp [frameTrace, h1, h2, h3, hp]

/-- C2: the request loop appends exactly one response frame to the write
buffer per parsed request, and the responses appear in the write buffer in
the order the requests were parsed: the final write buffer is the initial
one followed by the serialized responses of the trace of dispatched
requests, in trace order. -/
theorem responses_fifo (fuel : Nat) (c : Conn) (st : Store) :
    (runRequests fuel c st).1.write_buf =
      c.write_buf ++
        ((frameTrace fuel c.read_buf st).map (fun p => make_response p.2)).flatten := by
  induction fuel generalizing c st with
  | zero => simp [runRequests, frameTrace]
  | succ fuel ih =>
    rcases hor_cases c st with ⟨h1, he⟩ | ⟨h4, h2, he⟩ | ⟨h4, hlen, h3, he⟩ |
      ⟨h4, hlen, hfull, hp, he⟩ | ⟨cmd, h4, hlen, hfull, hp, he⟩
    · rw [runRequests_succ, he, ft_header_wait fuel c.read_buf st h1]
      simp
    · rw [runRequests_succ, he, ft_too_long fuel c.read_buf st h4 h2]
      simp
    · rw [runRequests_succ, he, ft_body_wait fuel c.read_buf st h4 hlen h3]
      simp
    · rw [runRequests_succ, he, ft_parse_bad fuel c.read_buf st h4 hlen hfull hp]
      simp
    · rw [runRequests_succ, he, ft_parse_ok fuel c.read_buf st cmd h4 hlen hfull hp]
      simp only [Prod.snd, Prod.fst, if_true]
      rw [ih]
      simp [List.append_assoc]

/-! Fuel irrelevance: any fuel strictly above the buffer length runs the
request loop to its final failing call. -/

theorem runRequests_fuel_irrel (n : Nat) :
    ∀ (f g : Nat) (c : Conn) (st : Store), c.read_buf.length ≤ n →
      c.read_buf.length < f → c.read_buf.length < g →
      runRequests f c st = runRequests g c st := by
  induction n with
  | zero =>
    intro f g c st hn hf hg
    obtain ⟨f', rfl⟩ : ∃ f', f = f' + 1 := ⟨f - 1, by omega⟩
    obtain ⟨g', rfl⟩ : ∃ g', g = g' + 1 := ⟨g - 1, by omega⟩
    rcases hor_cases c st with ⟨h1, he⟩ | ⟨h4, h2, he⟩ | ⟨h4, hlen, h3, he⟩ |
      ⟨h4, hlen, hfull, hp, he⟩ | ⟨cmd, h4, hlen, hfull, hp, he⟩
    · rw [runRequests_succ, runRequests_succ, he]
      rfl
    · omega
    · omega
    · omega
    · omega
  | succ n ih =>
    intro f g c st hn hf hg
    obtain ⟨f', rfl⟩ : ∃ f', f = f' + 1 := ⟨f - 1, by omega⟩
    obtain ⟨g', rfl⟩ : ∃ g', g = g' + 1 := ⟨g - 1, by omega⟩
    rcases hor_cases c st with ⟨h1, he⟩ | ⟨h4, h2, he⟩ | ⟨h4, hlen, h3, he⟩ |
      ⟨h4, hlen, hfull, hp, he⟩ | ⟨cmd, h4, hlen, hfull, hp, he⟩
    · rw [runRequests_succ, runRequests_succ, he]
      rfl
    · rw [runRequests_succ, runRequests_succ, he]
      rfl
    · rw [runRequests_succ, runRequests_succ, he]
      rfl
    · rw [runRequests_succ, runRequests_succ, he]
      rfl
    · rw [runRequests_succ, runRequests_succ, he]
      show runRequests f' _ _ = runRequests g' _ _
      exact ih f' g' _ _ (by simp; omega) (by simp; omega) (by simp; omega)

/-- Running the loop to completion and then appending more bytes and running
again is the same as appending the bytes before the run: buffered input can
be re-chunked at any point without changing the outcome. -/
theorem drain_append (n : Nat) :
    ∀ (c : Conn) (st : Store) (ys : List Nat), c.read_buf.length ≤ n →
      drain { (drain c st).1 with read_buf := (drain c st).1.read_buf ++ ys }
          (drain c st).2 =
        drain { c with read_buf := c.read_buf ++ ys } st := by
  induction n with
  | zero =>
    intro c st ys hn
    rcases hor_cases c st with ⟨h1, he⟩ | ⟨h4, h2, he⟩ | ⟨h4, hlen, h3, he⟩ |
      ⟨h4, hlen, hfull, hp, he⟩ | ⟨cmd, h4, hlen, hfull, hp, he⟩
    · have hd : drain c st = (c, st) := by
        unfold drain
        rw [runRequests_succ, he]
        rfl
      rw [hd]
    · omega
    · omega
    · omega
    · omega
  | succ n ih =>
    intro c st ys hn
    obtain ⟨wr, ww, wc, buf, wb⟩ := c
    rcases hor_cases ⟨wr, ww, wc, buf, wb⟩ st with
      ⟨h1, he⟩ | ⟨h4, h2, he⟩ | ⟨h4, hlen, h3, he⟩ |
      ⟨h4, hlen, hfull, hp, he⟩ | ⟨cmd, h4, hlen, hfull, hp, he⟩
    · -- waiting for the 4-byte header: nothing consumed, nothing changed
      have hd : drain ⟨wr, ww, wc, buf, wb⟩ st = (⟨wr, ww, wc, buf, wb⟩, st) := by
        unfold drain
        rw [runRequests_succ, he]
        rfl
      rw [hd]
    · -- oversized frame: want_close set, buffer untouched, loop stops
      have h4a : (4 : Nat) ≤ buf.length := h4
      have h2a : k_max_msg < decodeU32 buf := h2
      have hda : decodeU32 (buf ++ ys) = decodeU32 buf := decodeU32_append buf ys h4a
      have hd : drain ⟨wr, ww, wc, buf, wb⟩ st = (⟨wr, ww, true, buf, wb⟩, st) := by
        unfold drain
        rw [runRequests_succ, he]
        rfl
      rw [hd]
      have hL : handle_one_request ⟨wr, ww, true, buf ++ ys, wb⟩ st =
          (⟨wr, ww, true, buf ++ ys, wb⟩, st, false) := by
        have := hor_too_long ⟨wr, ww, true, buf ++ ys, wb⟩ st
          (by show 4 ≤ (buf ++ ys).length
              rw [List.length_append]
              omega)
          (by show k_max_msg < decodeU32 (buf ++ ys)
              rw [hda]
              exact h2a)
        simpa using this
      have hR : handle_one_request ⟨wr, ww, wc, buf ++ ys, wb⟩ st =
          (⟨wr, ww, true, buf ++ ys, wb⟩, st, false) := by
        have := hor_too_long ⟨wr, ww, wc, buf ++ ys, wb⟩ st
          (by show 4 ≤ (buf ++ ys).length
              rw [List.length_append]
              omega)
          (by show k_max_msg < decodeU32 (buf ++ ys)
              rw [hda]
              exact h2a)
        simpa using this
      show drain ⟨wr, ww, true, buf ++ ys, wb⟩ st =
        drain ⟨wr, ww, wc, buf ++ ys, wb⟩ st
      unfold drain
      rw [runRequests_succ, runRequests_succ, hL, hR]
    · -- complete header, waiting for the body: nothing consumed
      have hd : drain ⟨wr, ww, wc, buf, wb⟩ st = (⟨wr, ww, wc, buf, wb⟩, st) := by
        unfold drain
        rw [runRequests_succ, he]
        rfl
      rw [hd]
    · -- malformed frame: want_close set, buffer untouched, loop stops
      have h4a : (4 : Nat) ≤ buf.length := h4
      have hlena : decodeU32 buf ≤ k_max_msg := hlen
      have hfulla : 4 + decodeU32 buf ≤ buf.length := hfull
      have hpa : parse_req ((buf.drop 4).take (decodeU32 buf)) = none := hp
      have hda : decodeU32 (buf ++ ys) = decodeU32 buf := decodeU32_append buf ys h4a
      have hba : ((buf ++ ys).drop 4).take (decodeU32 buf) =
          (buf.drop 4).take (decodeU32 buf) := body_append buf ys _ hfulla
      have hd : drain ⟨wr, ww, wc, buf, wb⟩ st = (⟨wr, ww, true, buf, wb⟩, st) := by
        unfold drain
        rw [runRequests_succ, he]
        rfl
      rw [hd]
      have hL : handle_one_request ⟨wr, ww, true, buf ++ ys, wb⟩ st =
          (⟨wr, ww, true, buf ++ ys, wb⟩, st, false) := by
        have := hor_parse_bad ⟨wr, ww, true, buf ++ ys, wb⟩ st
          (by show 4 ≤ (buf ++ ys).length
              rw [List.length_append]
              omega)
          (by show decodeU32 (buf ++ ys) ≤ k_max_msg
              rw [hda]
              exact hlena)
          (by show 4 + decodeU32 (buf ++ ys) ≤ (buf ++ ys).length
              rw [hda, List.length_append]
              omega)
          (by show parse_req (((buf ++ ys).drop 4).take (decodeU32 (buf ++ ys))) = none
              rw [hda, hba]
              exact hpa)
        simpa using this
      have hR : handle_one_request ⟨wr, ww, wc, buf ++ ys, wb⟩ st =
          (⟨wr, ww, true, buf ++ ys, wb⟩, st, false) := by
        have := hor_parse_bad ⟨wr, ww, wc, buf ++ ys, wb⟩ st
          (by show 4 ≤ (buf ++ ys).length
              rw [List.length_append]
              omega)
          (by show decodeU32 (buf ++ ys) ≤ k_max_msg
              rw [hda]
              exact hlena)
          (by show 4 + decodeU32 (buf ++ ys) ≤ (buf ++ ys).length
              rw [hda, List.length_append]
              omega)
          (by show parse_req (((buf ++ ys).drop 4).take (decodeU32 (buf ++ ys))) = none
              rw [hda, hba]
              exact hpa)
        simpa using this
      show drain ⟨wr, ww, true, buf ++ ys, wb⟩ st =
        drain ⟨wr, ww, wc, buf ++ ys, wb⟩ st
      unfold drain
      rw [runRequests_succ, runRequests_succ, hL, hR]
    · -- a full frame dispatched: both sides take the same step, then induct
      have h4a : (4 : Nat) ≤ buf.length := h4
      have hlena : decodeU32 buf ≤ k_max_msg := hlen
      have hfulla : 4 + decodeU32 buf ≤ buf.length := hfull
      have hpa : parse_req ((buf.drop 4).take (decodeU32 buf)) = some cmd := hp
      have hna : buf.length ≤ n + 1 := hn
      have hda : decodeU32 (buf ++ ys) = decodeU32 buf := decodeU32_append buf ys h4a
      have hba : ((buf ++ ys).drop 4).take (decodeU32 buf) =
          (buf.drop 4).take (decodeU32 buf) := body_append buf ys _ hfulla
      have hdrop : (buf ++ ys).drop (4 + decodeU32 buf) =
          buf.drop (4 + decodeU32 buf) ++ ys :=
        List.drop_append_of_le_length hfulla
      have hstep : drain ⟨wr, ww, wc, buf, wb⟩ st =
          drain ⟨wr, ww, wc, buf.drop (4 + decodeU32 buf),
            wb ++ make_response (do_request cmd st).2⟩ (do_request cmd st).1 := by
        unfold drain
        rw [runRequests_succ, he]
        show runRequests _ _ _ = _
        exact runRequests_fuel_irrel (buf.length - 4) buf.length
          ((buf.drop (4 + decodeU32 buf)).length + 1)
          ⟨wr, ww, wc, buf.drop (4 + decodeU32 buf),
            wb ++ make_response (do_request cmd st).2⟩ (do_request cmd st).1
          (by show (buf.drop (4 + decodeU32 buf)).length ≤ buf.length - 4
              rw [List.length_drop]
              omega)
          (by show (buf.drop (4 + decodeU32 buf)).length < buf.length
              rw [List.length_drop]
              omega)
          (by show (buf.drop (4 + decodeU32 buf)).length <
                (buf.drop (4 + decodeU32 buf)).length + 1
              omega)
      have hstepR : drain ⟨wr, ww, wc, buf ++ ys, wb⟩ st =
          drain ⟨wr, ww, wc, buf.drop (4 + decodeU32 buf) ++ ys,
            wb ++ make_response (do_request cmd st).2⟩ (do_request cmd st).1 := by
        have hRstep := hor_parse_ok ⟨wr, ww, wc, buf ++ ys, wb⟩ st cmd
          (by show 4 ≤ (buf ++ ys).length
              rw [List.length_append]
              omega)
          (by show decodeU32 (buf ++ ys) ≤ k_max_msg
              rw [hda]
              exact hlena)
          (by show 4 + decodeU32 (buf ++ ys) ≤ (buf ++ ys).length
              rw [hda, List.length_append]
              omega)
          (by show parse_req (((buf ++ ys).drop 4).take (decodeU32 (buf ++ ys))) =
                some cmd
              rw [hda, hba]
              exact hpa)
        unfold drain
        rw [runRequests_succ, hRstep]
        rw [hda, hdrop]
        show runRequests _ _ _ = _
        exact runRequests_fuel_irrel (buf.length - 4 + ys.length)
          ((buf ++ ys).length)
          ((buf.drop (4 + decodeU32 buf) ++ ys).length + 1)
          ⟨wr, ww, wc, buf.drop (4 + decodeU32 buf) ++ ys,
            wb ++ make_response (do_request cmd st).2⟩ (do_request cmd st).1
          (by show (buf.drop (4 + decodeU32 buf) ++ ys).length ≤
                buf.length - 4 + ys.length
              rw [List.length_append, List.length_drop]
              omega)
          (by show (buf.drop (4 + decodeU32 buf) ++ ys).length < (buf ++ ys).length
              rw [List.length_append, List.length_append, List.length_drop]
              omega)
          (by show (buf.drop (4 + decodeU32 buf) ++ ys).length <
                (buf.drop (4 + decodeU32 buf) ++ ys).length + 1
              omega)
      rw [hstep, hstepR]
      have := ih ⟨wr, ww, wc, buf.drop (4 + decodeU32 buf),
          wb ++ make_response (do_request cmd st).2⟩ (do_request cmd st).1 ys
        (by show (buf.drop (4 + decodeU32 buf)).length ≤ n
            rw [List.length_drop]
            omega)
      simpa using this

/-- Witness for the amended C6 at a concrete accepted frame: one empty
argument, `total_length = 8`. -/
theorem frame_size_bound_amended_witness :
    (handle_one_request ⟨true, false, false, u32le 8 ++ u32le 1 ++ u32le 0, []⟩
      []).2.2 = true ∧
    decodeU32 (⟨true, false, false, u32le 8 ++ u32le 1 ++ u32le 0, []⟩ :
      Conn).read_buf ≤ k_max_msg :=
  ⟨by decide,
    (frame_size_bound_amended ⟨true, false, false, u32le 8 ++ u32le 1 ++ u32le 0, []⟩
      [] (by decide)).1⟩

/-! Reassembly: re-chunking the input stream does not change the outcome. -/

theorem handle_read_bytes_append (c : Conn) (st : Store) (xs ys : List Nat) :
    handle_read_bytes (handle_read_bytes c st xs).1 (handle_read_bytes c st xs).2
        ys =
      handle_read_bytes c st (xs ++ ys) := by
  unfold handle_read_bytes
  rw [drain_append ((c.read_buf ++ xs).length)
    { c with read_buf := c.read_buf ++ xs } st ys (le_refl _)]
  rw [List.append_assoc]

theorem feedChunks_cons_flatten :
    ∀ (chunks : List (List Nat)) (c : Conn) (st : Store) (chunk : List Nat),
      feedChunks c st (chunk :: chunks) =
        handle_read_bytes c st ((chunk :: chunks).flatten) := by
  intro chunks
  induction chunks with
  | nil =>
    intro c st chunk
    show handle_read_bytes c st chunk = handle_read_bytes c st (chunk ++ [])
    rw [List.append_nil]
  | cons ch2 rest ih =>
    intro c st chunk
    have h1 : feedChunks c st (chunk :: ch2 :: rest) =
        feedChunks (handle_read_bytes c st chunk).1
          (handle_read_bytes c st chunk).2 (ch2 :: rest) := rfl
    rw [h1, ih, handle_read_bytes_append]
    rfl

theorem no_partial_frame_action (c : Conn) (st : Store)
    (h : c.read_buf.length < 4 + decodeU32 c.read_buf) :
    (handle_one_request c st).1.read_buf = c.read_buf ∧
    (handle_one_request c st).1.write_buf = c.write_buf ∧
    (handle_one_request c st).2.1 = st ∧
    (handle_one_request c st).2.2 = false := by
  by_cases h1 : c.read_buf.length < 4
  · rw [hor_header_wait c st h1]
    exact ⟨rfl, rfl, rfl, rfl⟩
  · have h4 : 4 ≤ c.read_buf.length := by omega
    by_cases h2 : k_max_msg < decodeU32 c.read_buf
    · rw [hor_too_long c st h4 h2]
      exact ⟨rfl, rfl, rfl, rfl⟩
    · rw [hor_body_wait c st h4 (by omega) h]
      exact ⟨rfl, rfl, rfl, rfl⟩

/-- C3: delivering a byte sequence as any number of separate reads gives
the same final connection state and store as delivering it in one read;
and no frame is acted upon — nothing consumed, no response queued, no store
mutation — while fewer than `4 + total_length` of its bytes are buffered. -/
theorem reassembly (c : Conn) (st : Store) (chunk : List Nat)
    (chunks : List (List Nat)) :
    feedChunks c st (chunk :: chunks) =
      handle_read_bytes c st ((chunk :: chunks).flatten) ∧
    ∀ (c2 : Conn) (st2 : Store),
      c2.read_buf.length < 4 + decodeU32 c2.read_buf →
      (handle_one_request c2 st2).1.read_buf = c2.read_buf ∧
      (handle_one_request c2 st2).1.write_buf = c2.write_buf ∧
      (handle_one_request c2 st2).2.1 = st2 ∧
      (handle_one_request c2 st2).2.2 = false :=
  ⟨feedChunks_cons_flatten chunks c st chunk,
    fun c2 st2 h => no_partial_frame_action c2 st2 h⟩

/-- Witness for C3: a 12-byte `total_length = 8` frame split into a 5-byte
and a 7-byte read, against delivering all 12 bytes at once; and a partial
frame (header only, declared length 9) on which nothing happens. -/
theorem reassembly_witness :
    feedChunks ⟨true, false, false, [], []⟩ []
        [(u32le 8 ++ u32le 1 ++ u32le 0).take 5,
          (u32le 8 ++ u32le 1 ++ u32le 0).drop 5] =
      handle_read_bytes ⟨true, false, false, [], []⟩ []
        ([(u32le 8 ++ u32le 1 ++ u32le 0).take 5,
          (u32le 8 ++ u32le 1 ++ u32le 0).drop 5].flatten) ∧
    (handle_one_request ⟨true, false, false, u32le 9, []⟩ []).2.2 = false := by
  refine ⟨(reassembly ⟨true, false, false, [], []⟩ [] _ _).1, ?_⟩
  exact ((reassembly ⟨true, false, false, [], []⟩ [] [] []).2
    ⟨true, false, false, u32le 9, []⟩ [] (by decide)).2.2.2

/-! Round trip of the wire encoding, with trailing bytes inside a frame. -/

theorem parse_args_encode :
    ∀ (args : List (List Nat)) (trailing : List Nat),
      (∀ a ∈ args, a.length < 4294967296) →
      parse_args args.length (encodeArgs args ++ trailing) = some args := by
  intro args
  induction args with
  | nil =>
    intro trailing h
    rfl
  | cons a rest ih =>
    intro trailing h
    have ha : a.length < 4294967296 := h a (by simp)
    have hrest : ∀ b ∈ rest, b.length < 4294967296 := fun b hb => h b (by simp [hb])
    show parse_args (rest.length + 1) (encodeArgs (a :: rest) ++ trailing) =
      some (a :: rest)
    have he : encodeArgs (a :: rest) ++ trailing =
        u32le a.length ++ (a ++ (encodeArgs rest ++ trailing)) := by
      simp [encodeArgs, encodeArg]
    rw [he]
    simp only [parse_args,
      read_u32_u32le a.length (a ++ (encodeArgs rest ++ trailing)) ha,
      read_str_exact a (encodeArgs rest ++ trailing), ih trailing hrest]

/-- C10: a frame whose declared `total_length` extends beyond the bytes its
arguments occupy is not rejected: the arguments parse, the request is
dispatched normally, and the trailing bytes inside the frame are silently
discarded when the full `4 + total_length` bytes are consumed. -/
theorem trailing_bytes_discarded (c : Conn) (st : Store)
    (args : List (List Nat)) (trailing : List Nat)
    (hbuf : c.read_buf =
      u32le (u32le args.length ++ (encodeArgs args ++ trailing)).length ++
        (u32le args.length ++ (encodeArgs args ++ trailing)))
    (hn : args.length ≤ k_max_msg)
    (ha : ∀ a ∈ args, a.length < 4294967296)
    (hlen : (u32le args.length ++ (encodeArgs args ++ trailing)).length ≤ k_max_msg) :
    handle_one_request c st =
      ({ c with
          write_buf := c.write_buf ++ make_response (do_request args st).2,
          read_buf := [] }, (do_request args st).1, true) := by
  have hlen32 : (u32le args.length ++ (encodeArgs args ++ trailing)).length <
      4294967296 := by
    rw [k_max_msg_eq] at hlen
    omega
  have hdec : decodeU32 c.read_buf =
      (u32le args.length ++ (encodeArgs args ++ trailing)).length := by
    rw [hbuf]
    exact decodeU32_u32le _ _ hlen32
  have hblen : c.read_buf.length =
      4 + (u32le args.length ++ (encodeArgs args ++ trailing)).length := by
    rw [hbuf, List.length_append, length_u32le]
  have hbody : (c.read_buf.drop 4).take
      ((u32le args.length ++ (encodeArgs args ++ trailing)).length) =
      u32le args.length ++ (encodeArgs args ++ trailing) := by
    rw [hbuf, List.drop_left' (length_u32le _), List.take_of_length_le (le_refl _)]
  have hp : parse_req ((c.read_buf.drop 4).take (decodeU32 c.read_buf)) =
      some args := by
    rw [hdec, hbody,
      parse_req_u32 args.length _ (by rw [k_max_msg_eq] at hn; omega) hn]
    exact parse_args_encode args trailing ha
  have hnil : c.read_buf.drop (4 + decodeU32 c.read_buf) = [] := by
    apply List.drop_eq_nil_of_le
    rw [hblen, hdec]
  have h := hor_parse_ok c st args (by omega) (by rw [hdec]; exact hlen)
    (by omega) hp
  rw [h, hnil]

/-- Witness for C10: one argument `"a"` followed by two trailing bytes
inside the declared frame. -/
theorem trailing_bytes_discarded_witness :
    handle_one_request
        ⟨true, false, false,
          u32le (u32le 1 ++ (encodeArgs [[97]] ++ [7, 7])).length ++
            (u32le 1 ++ (encodeArgs [[97]] ++ [7, 7])), []⟩ [] =
      (⟨true, false, false, [],
          make_response (do_request [[97]] []).2⟩, (do_request [[97]] []).1,
        true) := by
  have h := trailing_bytes_discarded
    ⟨true, false, false,
      u32le (u32le 1 ++ (encodeArgs [[97]] ++ [7, 7])).length ++
        (u32le 1 ++ (encodeArgs [[97]] ++ [7, 7])), []⟩ [] [[97]] [7, 7]
    rfl (by decide) (by decide) (by decide)
  simpa using h

/-! Claims about the accept path and the event-loop dispatch. -/

/-- C7 (code bug): on a non-EAGAIN `accept` error the source logs the error
but falls through without returning, so `fb_set_nb` runs on descriptor -1;
its `fcntl` fails and `die()` aborts the whole process, contradicting the
claim that such an error is logged and not fatal. -/
theorem accept_error_aborts :
    handle_accept (-1) false = AcceptOutcome.procAbort ∧
    fb_set_nb (-1) = none := by
  constructor
  · rfl
  · rfl

/-- C8: in each event-loop iteration, every non-listener poll entry with
the readable flag set gets its read handler invoked, and every entry with
the writable flag set gets its write handler invoked, in that same
iteration; only entries with no revent bit at all set are skipped. -/
theorem ready_events_dispatched (wcAfter : Nat → Bool)
    (entries : List (Nat × Revents)) (fd : Nat) (rev : Revents)
    (hmem : (fd, rev) ∈ entries) :
    (rev.pollin = true → Action.readH fd ∈ dispatchIteration wcAfter entries) ∧
    (rev.pollout = true → Action.writeH fd ∈ dispatchIteration wcAfter entries) ∧
    (reventsNone rev = true → dispatchEntry wcAfter (fd, rev) = []) := by
  refine ⟨?_, ?_, ?_⟩
  · intro hin
    refine List.mem_flatMap_of_mem hmem ?_
    simp [dispatchEntry, reventsNone, hin]
  · intro hout
    refine List.mem_flatMap_of_mem hmem ?_
    simp [dispatchEntry, reventsNone, hout]
  · intro hnone
    simp [dispatchEntry, hnone]

/-- Witness for C8: one connection with both flags ready. -/
theorem ready_events_dispatched_witness :
    Action.readH 5 ∈
      dispatchIteration (fun _ => false) [(5, ⟨true, true, false, false⟩)] ∧
    Action.writeH 5 ∈
      dispatchIteration (fun _ => false) [(5, ⟨true, true, false, false⟩)] := by
  have h := ready_events_dispatched (fun _ => false)
    [(5, ⟨true, true, false, false⟩)] 5 ⟨true, true, false, false⟩ (by decide)
  exact ⟨h.1 rfl, h.2.1 rfl⟩

end Redis
